import Mathlib

/-!
Shallow embedding of the animation engine of `animated_widgets_pack`
(`animations.py` and the property-tween layer of `core.py`).

Python floats are modelled as real numbers (exact arithmetic); where a
definition only needs ordered-field operations it is stated over an
arbitrary `LinearOrderedField` so that concrete runs can be evaluated
over `ℚ`.  Wall-clock time and thread interleaving are modelled by an
explicit environment: a schedule of elapsed-time samples (one list per
repeat iteration, giving the successive values of `time.time() -
start_time` observed by the loop), a cancellation point (the index of
the first `do_run` check that observes `False`; the flag is set `True`
at thread creation and only ever flipped to `False` by `stop`), and a
predicate saying at which ticks the update callback raises.
-/

namespace AnimatedWidgets

/-- Embedding of the `EasingType` enum of `animations.py`. -/
inductive EasingType
  | LINEAR
  | EASE_IN_QUAD
  | EASE_OUT_QUAD
  | EASE_IN_OUT_QUAD
  | EASE_IN_CUBIC
  | EASE_OUT_CUBIC
  | EASE_IN_OUT_CUBIC
  | BOUNCE_OUT
  | ELASTIC_OUT
  | EASE_IN_BACK
  | EASE_OUT_BACK
  | EASE_IN_OUT_BACK
  | EASE_IN_CIRC
  | EASE_OUT_CIRC
  | EASE_IN_OUT_CIRC
  deriving DecidableEq, Repr

/-- Embedding of the `AnimationConfig` dataclass.  `F` stands for the
Python `float` type. -/
structure AnimationConfig (F : Type) where
  duration : F
  easing : EasingType
  fps : ℕ
  auto_reverse : Bool
  repeat_count : ℤ
  delay : F

namespace EasingFunctions

/-- Embedding of `EasingFunctions.linear`. -/
def linear (t : ℝ) : ℝ := t

/-- Embedding of `EasingFunctions.ease_in_quad`. -/
def ease_in_quad (t : ℝ) : ℝ := t * t

/-- Embedding of `EasingFunctions.ease_out_quad`. -/
def ease_out_quad (t : ℝ) : ℝ := t * (2 - t)

/-- Embedding of `EasingFunctions.ease_in_out_quad`. -/
noncomputable def ease_in_out_quad (t : ℝ) : ℝ :=
  if t < 0.5 then 2 * t * t else 1 - (-2 * t + 2) ^ 2 / 2

/-- Embedding of `EasingFunctions.ease_in_cubic`. -/
def ease_in_cubic (t : ℝ) : ℝ := t * t * t

/-- Embedding of `EasingFunctions.ease_out_cubic`. -/
def ease_out_cubic (t : ℝ) : ℝ := 1 - (1 - t) ^ 3

/-- Embedding of `EasingFunctions.ease_in_out_cubic`. -/
noncomputable def ease_in_out_cubic (t : ℝ) : ℝ :=
  if t < 0.5 then 4 * t * t * t else 1 - (-2 * t + 2) ^ 3 / 2

/-- Embedding of `EasingFunctions.bounce_out` (four-segment piecewise
parabola; the Python local reassignments of `t` become the shifted
arguments). -/
noncomputable def bounce_out (t : ℝ) : ℝ :=
  if t < 1 / 2.75 then 7.5625 * t * t
  else if t < 2 / 2.75 then 7.5625 * (t - 1.5 / 2.75) * (t - 1.5 / 2.75) + 0.75
  else if t < 2.5 / 2.75 then 7.5625 * (t - 2.25 / 2.75) * (t - 2.25 / 2.75) + 0.9375
  else 7.5625 * (t - 2.625 / 2.75) * (t - 2.625 / 2.75) + 0.984375

/-- Embedding of `EasingFunctions.elastic_out`; `t == 0 or t == 1` is an
explicit boundary case returning `t`, and `pow(2, -10*t)` is the real
power. -/
noncomputable def elastic_out (t : ℝ) : ℝ :=
  if t = 0 ∨ t = 1 then t
  else (2 : ℝ) ^ (-10 * t) * Real.sin ((t * 10 - 0.75) * (2 * Real.pi) / 3) + 1

/-- Embedding of `EasingFunctions.ease_in_back` (the class body defines it
twice with identical bodies; this is the surviving definition). -/
def ease_in_back (t : ℝ) : ℝ :=
  let c1 : ℝ := 1.70158
  let c3 : ℝ := c1 + 1
  c3 * t * t * t - c1 * t * t

/-- Embedding of `EasingFunctions.ease_out_back` (defined twice with
identical bodies). -/
def ease_out_back (t : ℝ) : ℝ :=
  let c1 : ℝ := 1.70158
  let c3 : ℝ := c1 + 1
  1 + c3 * (t - 1) ^ 3 + c1 * (t - 1) ^ 2

/-- Embedding of `EasingFunctions.ease_in_out_back`.  The class body
defines this name twice with different first branches; in Python the
later definition wins, whose first branch is
`(2 * t * t * ((c2 + 1) * 2 * t - c2)) / 2`. -/
noncomputable def ease_in_out_back (t : ℝ) : ℝ :=
  let c1 : ℝ := 1.70158
  let c2 : ℝ := c1 * 1.525
  if t < 0.5 then
    (2 * t * t * ((c2 + 1) * 2 * t - c2)) / 2
  else
    ((2 * t - 2) ^ 2 * ((c2 + 1) * (t * 2 - 2) + c2) + 2) / 2

/-- Embedding of `EasingFunctions.ease_in_circ`. -/
noncomputable def ease_in_circ (t : ℝ) : ℝ := 1 - Real.sqrt (1 - t ^ 2)

/-- Embedding of `EasingFunctions.ease_out_circ`. -/
noncomputable def ease_out_circ (t : ℝ) : ℝ := Real.sqrt (1 - (t - 1) ^ 2)

/-- Embedding of `EasingFunctions.ease_in_out_circ`. -/
noncomputable def ease_in_out_circ (t : ℝ) : ℝ :=
  if t < 0.5 then (1 - Real.sqrt (1 - (2 * t) ^ 2)) / 2
  else (Real.sqrt (1 - (-2 * t + 2) ^ 2) + 1) / 2

end EasingFunctions

/-- Embedding of the `_easing_functions` dictionary built in
`AnimationManager.__init__`: it has an entry for every `EasingType`
member. -/
noncomputable def easingFunctionsDict : EasingType → (ℝ → ℝ)
  | .LINEAR => EasingFunctions.linear
  | .EASE_IN_QUAD => EasingFunctions.ease_in_quad
  | .EASE_OUT_QUAD => EasingFunctions.ease_out_quad
  | .EASE_IN_OUT_QUAD => EasingFunctions.ease_in_out_quad
  | .EASE_IN_CUBIC => EasingFunctions.ease_in_cubic
  | .EASE_OUT_CUBIC => EasingFunctions.ease_out_cubic
  | .EASE_IN_OUT_CUBIC => EasingFunctions.ease_in_out_cubic
  | .BOUNCE_OUT => EasingFunctions.bounce_out
  | .ELASTIC_OUT => EasingFunctions.elastic_out
  | .EASE_IN_BACK => EasingFunctions.ease_in_back
  | .EASE_OUT_BACK => EasingFunctions.ease_out_back
  | .EASE_IN_OUT_BACK => EasingFunctions.ease_in_out_back
  | .EASE_IN_CIRC => EasingFunctions.ease_in_circ
  | .EASE_OUT_CIRC => EasingFunctions.ease_out_circ
  | .EASE_IN_OUT_CIRC => EasingFunctions.ease_in_out_circ

/-- Embedding of `self._easing_functions.get(config.easing,
EasingFunctions.ease_out_cubic)` in `_animation_loop`: the dictionary is
total on the enum, so for a well-typed `EasingType` the `ease_out_cubic`
default of `.get` is never used. -/
noncomputable def resolveEasing (e : EasingType) : ℝ → ℝ :=
  easingFunctionsDict e

/-- How one repeat iteration's inner `while` loop in `_animation_loop`
ended: by reaching `progress >= 1.0`, by the `break` in the
`except` clause around `update_callback`, because the `do_run` check at
the top was `False`, or because the (finite) schedule of clock samples
ran out before any of those — the last case is a model artifact, the
real clock advances without bound. -/
inductive ExitKind
  | completed
  | raised
  | stopped
  | starved
  deriving DecidableEq, Repr

/-- One invocation of `update_callback` inside `_animation_loop`:
the repeat index `repeat` of the enclosing `for`, the clamped
`progress = min(elapsed / config.duration, 1.0)`, the `current_value`
passed to the callback, and whether the callback raised. -/
structure Tick (F : Type) where
  repeatIndex : ℕ
  rawProgress : F
  value : F
  raised : Bool
  deriving DecidableEq, Repr

/-- Environment resolving the nondeterminism of one `_animation_loop`
thread: `cancelAt = some c` means the `do_run` checks with global index
`≥ c` observe `False` (the flag starts `True` and is only ever flipped
to `False` by `stop_animation`/`stop_all_animations`, so observations
are monotone); `raiseAt n` says whether the `n`-th `update_callback`
invocation raises an exception. -/
structure LoopEnv where
  cancelAt : Option ℕ
  raiseAt : ℕ → Bool

/-- Value of `getattr(threading.current_thread(), "do_run", True)` at
the `n`-th check of this thread. -/
def LoopEnv.doRun (env : LoopEnv) (n : ℕ) : Bool :=
  match env.cancelAt with
  | none => true
  | some c => decide (n < c)

variable {F : Type} [LinearOrderedField F]

/-- Embedding of the inner `while` loop of `_animation_loop` for repeat
iteration `r`: it consumes successive samples of
`elapsed = time.time() - start_time`, checks `do_run`, computes
`progress`, applies easing and the auto-reverse flip, calls
`update_callback` (breaking out on an exception), and breaks once
`progress >= 1.0`.  Returns the ticks produced, the next global check
index, and the exit reason. -/
def innerLoop (easing_func : F → F) (duration start_value end_value : F)
    (auto_reverse : Bool) (env : LoopEnv) (r : ℕ) :
    List F → ℕ → List (Tick F) × ℕ × ExitKind
  | [], n => ([], n, ExitKind.starved)
  | elapsed :: rest, n =>
    if env.doRun n then
      let progress := min (elapsed / duration) 1
      let eased0 := easing_func progress
      let eased := if auto_reverse && decide (r % 2 = 1) then 1 - eased0 else eased0
      let value := start_value + (end_value - start_value) * eased
      if env.raiseAt n then
        ([⟨r, progress, value, true⟩], n + 1, ExitKind.raised)
      else if 1 ≤ progress then
        ([⟨r, progress, value, false⟩], n + 1, ExitKind.completed)
      else
        match innerLoop easing_func duration start_value end_value auto_reverse env r
            rest (n + 1) with
        | (ts, n1, ek) => (⟨r, progress, value, false⟩ :: ts, n1, ek)
    else ([], n, ExitKind.stopped)

/-- Embedding of `for repeat in range(config.repeat_count)` in
`_animation_loop`: runs `rem` further repeat iterations starting at
index `r`, threading the global check counter `n`; `schedule r` gives
the elapsed-time samples observed during iteration `r`. -/
def repeatLoop (easing_func : F → F) (duration start_value end_value : F)
    (auto_reverse : Bool) (env : LoopEnv) (schedule : ℕ → List F) :
    ℕ → ℕ → ℕ → List (Tick F) × ℕ × List ExitKind
  | _, 0, n => ([], n, [])
  | r, rem + 1, n =>
    match innerLoop easing_func duration start_value end_value auto_reverse env r
        (schedule r) n with
    | (ts, n1, ek) =>
      match repeatLoop easing_func duration start_value end_value auto_reverse env
          schedule (r + 1) rem n1 with
      | (ts2, n2, eks) => (ts ++ ts2, n2, ek :: eks)

/-- Observable outcome of one `_animation_loop` run: the update-callback
invocations in order, the exit reason of each repeat iteration, and
whether the completion callback was invoked at the end. -/
structure RunResult (F : Type) where
  ticks : List (Tick F)
  exits : List ExitKind
  completionCalled : Bool
  deriving DecidableEq, Repr

/-- Embedding of the body of `_animation_loop` after the easing lookup,
over an arbitrary resolved easing function: `range(config.repeat_count)`
performs `config.repeat_count.toNat` iterations, and afterwards the
completion callback is invoked exactly when one was supplied
(`if completion_callback:`), with no test of the `do_run` flag. -/
def animationLoopCore (easing_func : F → F) (config : AnimationConfig F)
    (start_value end_value : F) (hasCompletionCallback : Bool)
    (schedule : ℕ → List F) (env : LoopEnv) : RunResult F :=
  match repeatLoop easing_func config.duration start_value end_value
      config.auto_reverse env schedule 0 config.repeat_count.toNat 0 with
  | (ts, _, eks) => ⟨ts, eks, hasCompletionCallback⟩

/-- Embedding of `AnimationManager._animation_loop` over the reals,
resolving the easing function from the config as the source does. -/
noncomputable def animationLoop (config : AnimationConfig ℝ)
    (start_value end_value : ℝ) (hasCompletionCallback : Bool)
    (schedule : ℕ → List ℝ) (env : LoopEnv) : RunResult ℝ :=
  animationLoopCore (resolveEasing config.easing) config start_value end_value
    hasCompletionCallback schedule env

/-- Record of one thread spawned by `AnimationManager.animate`. -/
structure Spawn (F : Type) where
  token : ℕ
  animation_id : String
  start_value : F
  end_value : F
  config : AnimationConfig F
  hasCompletionCallback : Bool

/-- Registry state of an `AnimationManager`: `_active_animations` as an
association list from animation id to thread token (tokens stand for
thread identities and are handed out in creation order), the tokens
whose `do_run` flag has been set `False`, and the log of spawned
threads. -/
structure ManagerState (F : Type) where
  active : List (String × ℕ)
  nextToken : ℕ
  stoppedTokens : List ℕ
  spawns : List (Spawn F)

namespace AnimationManager

/-- Embedding of `AnimationManager.__init__`: empty registry. -/
def init (F : Type) : ManagerState F := ⟨[], 0, [], []⟩

/-- Embedding of `AnimationManager.stop_animation`: if the id is
registered, set that thread's `do_run` to `False` and delete the entry;
otherwise do nothing.  It raises nothing and invokes no callback. -/
def stop_animation (s : ManagerState F) (animation_id : String) : ManagerState F :=
  match s.active.lookup animation_id with
  | some tok =>
    { s with
      active := s.active.eraseP (fun p => p.1 == animation_id)
      stoppedTokens := tok :: s.stoppedTokens }
  | none => s

/-- Embedding of `AnimationManager.animate`: stop any existing animation
under the same id, then register and start a fresh thread.  There is no
validation of `config`. -/
def animate (s : ManagerState F) (animation_id : String)
    (start_value end_value : F) (config : AnimationConfig F)
    (hasCompletionCallback : Bool) : ManagerState F :=
  let s1 := stop_animation s animation_id
  { s1 with
    active := (animation_id, s1.nextToken) :: s1.active
    nextToken := s1.nextToken + 1
    spawns := s1.spawns ++
      [⟨s1.nextToken, animation_id, start_value, end_value, config,
        hasCompletionCallback⟩] }

/-- Embedding of `AnimationManager.stop_all_animations`. -/
def stop_all_animations (s : ManagerState F) : ManagerState F :=
  { s with
    active := []
    stoppedTokens := s.active.map Prod.snd ++ s.stoppedTokens }

/-- Embedding of `AnimationManager.is_animating`. -/
def is_animating (s : ManagerState F) (animation_id : String) : Bool :=
  (s.active.lookup animation_id).isSome

/-- Embedding of `AnimationManager.get_active_count`. -/
def get_active_count (s : ManagerState F) : ℕ := s.active.length

/-- Embedding of the registry cleanup at the end of `_animation_loop`
(`if animation_id in self._active_animations: del ...`): it deletes
whatever entry currently sits under `animation_id`, even one that
belongs to a replacement instance. -/
def loopCleanup (s : ManagerState F) (animation_id : String) : ManagerState F :=
  if (s.active.lookup animation_id).isSome then
    { s with active := s.active.eraseP (fun p => p.1 == animation_id) }
  else s

end AnimationManager

/-- State of an `AnimatedWidget` (`core.py`) as far as
`animate_property` observes and mutates it: the two config fields it
reads, the dynamic attribute store written through `setattr`, a counter
of `update_appearance()` calls, the `_current_animations` dict
(property name to thread token), and the spawn log of
`_animate_property_thread` starts. -/
structure WidgetState (F : Type) where
  enable_animations : Bool
  animation_duration : F
  attrs : String → F
  appearance_updates : ℕ
  current_animations : List (String × ℕ)
  nextToken : ℕ
  stoppedTokens : List ℕ
  spawned : List (String × F × F)

namespace AnimatedWidget

/-- Embedding of `AnimatedWidget.animate_property` (`core.py`).  When
`enable_animations` is off it sets the attribute to `end_value`, calls
`update_appearance()` once and returns.  Otherwise it sets `do_run =
False` on any thread already animating this property (without removing
the dict entry), then registers and starts a new thread. -/
def animate_property (w : WidgetState F) (property_name : String)
    (start_value end_value : F) : WidgetState F :=
  if !w.enable_animations then
    { w with
      attrs := fun s => if s = property_name then end_value else w.attrs s
      appearance_updates := w.appearance_updates + 1 }
  else
    { w with
      stoppedTokens :=
        match w.current_animations.lookup property_name with
        | some tok => tok :: w.stoppedTokens
        | none => w.stoppedTokens
      current_animations :=
        (property_name, w.nextToken) ::
          w.current_animations.eraseP (fun p => p.1 == property_name)
      nextToken := w.nextToken + 1
      spawned := w.spawned ++ [(property_name, start_value, end_value)] }

end AnimatedWidget

/-! Helper lemmas shared by the claim theorems. -/

section AssocHelpers

variable {α β : Type} [BEq α] [LawfulBEq α]

/-- A successful lookup exhibits a member of the association list. -/
theorem lookup_mem {l : List (α × β)} {a : α} {b : β}
    (h : l.lookup a = some b) : (a, b) ∈ l := by
  induction l with
  | nil => simp [List.lookup] at h
  | cons p t ih =>
    rw [List.lookup] at h
    by_cases hk : a == p.1
    · have ha : a = p.1 := eq_of_beq hk
      rw [hk] at h
      have : p = (a, b) := by
        cases p
        simp only [Option.some.injEq] at h
        simp_all
      simp [this]
    · simp only [Bool.not_eq_true] at hk
      rw [hk] at h
      exact List.mem_cons_of_mem _ (ih h)

/-- Lookup misses when the key is absent from the key list. -/
theorem lookup_eq_none_of_not_mem_keys {l : List (α × β)} {a : α}
    (h : a ∉ l.map Prod.fst) : l.lookup a = none := by
  induction l with
  | nil => rfl
  | cons p t ih =>
    simp only [List.map_cons, List.mem_cons, not_or] at h
    rw [List.lookup]
    have hk : (a == p.1) = false := by
      simp only [beq_eq_false_iff_ne, ne_eq]
      exact h.1
    rw [hk]
    exact ih h.2

/-- Erasing the entry for a key from an association list with distinct
keys makes lookups of that key miss. -/
theorem lookup_eraseP_self {l : List (α × β)} {a : α}
    (h : (l.map Prod.fst).Nodup) :
    (l.eraseP (fun p => p.1 == a)).lookup a = none := by
  induction l with
  | nil => rfl
  | cons p t ih =>
    simp only [List.map_cons, List.nodup_cons] at h
    by_cases hk : p.1 == a
    · simp only [List.eraseP_cons, hk, cond_true]
      apply lookup_eq_none_of_not_mem_keys
      have hpa : p.1 = a := eq_of_beq hk
      rw [← hpa]
      exact h.1
    · simp only [Bool.not_eq_true] at hk
      simp only [List.eraseP_cons, hk, cond_false]
      rw [List.lookup]
      have hk2 : (a == p.1) = false := by
        simp only [beq_eq_false_iff_ne, ne_eq]
        intro hc
        rw [hc] at hk
        simp at hk
      rw [hk2]
      exact ih h.2

end AssocHelpers

/-- The last element of a nonempty tail is the last element of the whole
list. -/
theorem getLast?_cons_of_some {α : Type} {l : List α} {a t : α}
    (h : l.getLast? = some t) : (a :: l).getLast? = some t := by
  cases l with
  | nil => simp at h
  | cons b l' => rw [List.getLast?_cons_cons]; exact h

/-- The completion callback runs exactly when one was supplied,
independently of cancellation and of what the repeats did. -/
theorem animationLoopCore_completionCalled (f : F → F) (cfg : AnimationConfig F)
    (sv ev : F) (hc : Bool) (sched : ℕ → List F) (env : LoopEnv) :
    (animationLoopCore f cfg sv ev hc sched env).completionCalled = hc := by
  rcases h : repeatLoop f cfg.duration sv ev cfg.auto_reverse env sched 0
      cfg.repeat_count.toNat 0 with ⟨ts, n, eks⟩
  simp [animationLoopCore, h]

/-- Projection of the run's ticks onto the repeat-loop recursion. -/
theorem animationLoopCore_ticks (f : F → F) (cfg : AnimationConfig F)
    (sv ev : F) (hc : Bool) (sched : ℕ → List F) (env : LoopEnv) :
    (animationLoopCore f cfg sv ev hc sched env).ticks
      = (repeatLoop f cfg.duration sv ev cfg.auto_reverse env sched 0
          cfg.repeat_count.toNat 0).1 := by
  rcases h : repeatLoop f cfg.duration sv ev cfg.auto_reverse env sched 0
      cfg.repeat_count.toNat 0 with ⟨ts, n, eks⟩
  simp [animationLoopCore, h]

/-- Projection of the run's per-repeat exits onto the repeat-loop
recursion. -/
theorem animationLoopCore_exits (f : F → F) (cfg : AnimationConfig F)
    (sv ev : F) (hc : Bool) (sched : ℕ → List F) (env : LoopEnv) :
    (animationLoopCore f cfg sv ev hc sched env).exits
      = (repeatLoop f cfg.duration sv ev cfg.auto_reverse env sched 0
          cfg.repeat_count.toNat 0).2.2 := by
  rcases h : repeatLoop f cfg.duration sv ev cfg.auto_reverse env sched 0
      cfg.repeat_count.toNat 0 with ⟨ts, n, eks⟩
  simp [animationLoopCore, h]

/-- Every repeat iteration of the `for` loop runs to an exit: the exits
list has exactly one entry per iteration, whatever happened inside. -/
theorem repeatLoop_exits_length (f : F → F) (d sv ev : F) (ar : Bool)
    (env : LoopEnv) (sched : ℕ → List F) :
    ∀ (rem r n : ℕ),
      ((repeatLoop f d sv ev ar env sched r rem n).2.2).length = rem := by
  intro rem
  induction rem with
  | zero => intro r n; simp [repeatLoop]
  | succ k ih =>
    intro r n
    rcases h1 : innerLoop f d sv ev ar env r (sched r) n with ⟨ts, n1, ek⟩
    rcases h2 : repeatLoop f d sv ev ar env sched (r + 1) k n1 with ⟨ts2, n2, eks⟩
    have hlen := ih (r + 1) n1
    rw [h2] at hlen
    simp only [repeatLoop, h1, h2]
    simpa using hlen

/-- A thread whose `do_run` flag is already `False` produces no tick in
any single repeat iteration. -/
theorem innerLoop_cancelled (f : F → F) (d sv ev : F) (ar : Bool)
    (env : LoopEnv) (hcz : env.cancelAt = some 0) (r : ℕ)
    (samples : List F) (n : ℕ) :
    (innerLoop f d sv ev ar env r samples n).1 = [] := by
  cases samples with
  | nil => simp [innerLoop]
  | cons e rest =>
    have hdo : env.doRun n = false := by simp [LoopEnv.doRun, hcz]
    simp [innerLoop, hdo]

/-- A thread whose `do_run` flag is already `False` produces no tick at
all across every repeat iteration. -/
theorem repeatLoop_cancelled {f : F → F} {d sv ev : F} {ar : Bool}
    {env : LoopEnv} (hcz : env.cancelAt = some 0) (sched : ℕ → List F) :
    ∀ (rem r n : ℕ), (repeatLoop f d sv ev ar env sched r rem n).1 = [] := by
  intro rem
  induction rem with
  | zero => intro r n; simp [repeatLoop]
  | succ k ih =>
    intro r n
    rcases h1 : innerLoop f d sv ev ar env r (sched r) n with ⟨ts, n1, ek⟩
    rcases h2 : repeatLoop f d sv ev ar env sched (r + 1) k n1 with ⟨ts2, n2, eks⟩
    have hts : ts = [] := by
      have := innerLoop_cancelled f d sv ev ar env hcz r (sched r) n
      rw [h1] at this
      exact this
    have hts2 : ts2 = [] := by
      have := ih (r + 1) n1
      rw [h2] at this
      exact this
    simp [repeatLoop, h1, h2, hts, hts2]

/-- With the flag never cancelled, the first tick of a repeat iteration
records the clamped progress of the first clock sample. -/
theorem innerLoop_head? (f : F → F) (d sv ev : F) (ar : Bool)
    (env : LoopEnv) (hcn : env.cancelAt = none) (r : ℕ)
    (samples : List F) (n : ℕ) :
    (((innerLoop f d sv ev ar env r samples n).1).head?).map Tick.rawProgress
      = samples.head?.map (fun e => min (e / d) 1) := by
  cases samples with
  | nil => simp [innerLoop]
  | cons e rest =>
    have hdo : env.doRun n = true := by simp [LoopEnv.doRun, hcn]
    by_cases hr : env.raiseAt n
    · simp [innerLoop, hdo, hr]
    · simp only [Bool.not_eq_true] at hr
      by_cases hp : (1 : F) ≤ min (e / d) 1
      · simp [innerLoop, hdo, hr, hp]
      · rcases h1 : innerLoop f d sv ev ar env r rest (n + 1) with ⟨ts, n1, ek⟩
        simp [innerLoop, hdo, hr, hp, h1]

/-- With the flag never cancelled and monotone clock samples, the raw
progress values of the ticks of one repeat iteration are
non-decreasing. -/
theorem innerLoop_chain' (f : F → F) (d sv ev : F) (ar : Bool)
    (env : LoopEnv) (hcn : env.cancelAt = none) (hd : 0 < d) (r : ℕ) :
    ∀ (samples : List F) (n : ℕ), samples.Chain' (· ≤ ·) →
      (((innerLoop f d sv ev ar env r samples n).1).map Tick.rawProgress).Chain'
        (· ≤ ·) := by
  intro samples
  induction samples with
  | nil => intro n _; simp [innerLoop]
  | cons e rest ih =>
    intro n hchain
    rw [List.chain'_cons'] at hchain
    have hdo : env.doRun n = true := by simp [LoopEnv.doRun, hcn]
    by_cases hr : env.raiseAt n
    · simp [innerLoop, hdo, hr]
    · simp only [Bool.not_eq_true] at hr
      by_cases hp : (1 : F) ≤ min (e / d) 1
      · simp [innerLoop, hdo, hr, hp]
      · rcases h1 : innerLoop f d sv ev ar env r rest (n + 1) with ⟨ts, n1, ek⟩
        have hts : (ts.map Tick.rawProgress).Chain' (· ≤ ·) := by
          have := ih (n + 1) hchain.2
          rw [h1] at this
          exact this
        have hh := innerLoop_head? f d sv ev ar env hcn r rest (n + 1)
        rw [h1] at hh
        have hhead : ∀ q ∈ (ts.map Tick.rawProgress).head?, min (e / d) 1 ≤ q := by
          intro q hq
          rw [List.head?_map, hh] at hq
          rcases rest with _ | ⟨e2, rest2⟩
          · simp at hq
          · simp only [List.head?_cons] at hq
            have hq2 : min (e2 / d) 1 = q := by simpa using hq
            rw [← hq2]
            have he2 : e ≤ e2 := hchain.1 e2 (by simp)
            gcongr
        have heq : innerLoop f d sv ev ar env r (e :: rest) n
            = (⟨r, min (e / d) 1,
                sv + (ev - sv) *
                  (if ar && decide (r % 2 = 1) then 1 - f (min (e / d) 1)
                   else f (min (e / d) 1)), false⟩ :: ts, n1, ek) := by
          simp [innerLoop, hdo, hr, hp, h1]
        rw [heq, List.map_cons]
        exact List.chain'_cons'.mpr ⟨hhead, hts⟩

/-- With the flag never cancelled, no raising callback, no
auto-reverse, positive duration and a clock sample reaching the
duration, a repeat iteration exits by completion and its last tick has
raw progress exactly `1` and value exactly `end_value` (given
`f 1 = 1`). -/
theorem innerLoop_completed (f : F → F) (d sv ev : F) (env : LoopEnv)
    (hcn : env.cancelAt = none) (hd : 0 < d) (hf1 : f 1 = 1) (r : ℕ) :
    ∀ (samples : List F) (n : ℕ), (∀ m, env.raiseAt m = false) →
      (∃ e ∈ samples, d ≤ e) →
      (innerLoop f d sv ev false env r samples n).2.2 = ExitKind.completed ∧
      ∃ t, ((innerLoop f d sv ev false env r samples n).1).getLast? = some t ∧
        t.rawProgress = 1 ∧ t.value = ev := by
  intro samples
  induction samples with
  | nil =>
    intro n _ hex
    simp at hex
  | cons e rest ih =>
    intro n hraise hex
    have hdo : env.doRun n = true := by simp [LoopEnv.doRun, hcn]
    have hr : env.raiseAt n = false := hraise n
    by_cases hde : d ≤ e
    · have h1 : (1 : F) ≤ e / d := (one_le_div hd).mpr hde
      have hp : min (e / d) 1 = 1 := min_eq_right h1
      have hple : (1 : F) ≤ min (e / d) 1 := by rw [hp]
      have heq : innerLoop f d sv ev false env r (e :: rest) n
          = ([⟨r, 1, sv + (ev - sv) * f 1, false⟩], n + 1, ExitKind.completed) := by
        simp [innerLoop, hdo, hr, hple, hp]
      rw [heq]
      refine ⟨rfl, ⟨r, 1, sv + (ev - sv) * f 1, false⟩, rfl, rfl, ?_⟩
      rw [hf1]
      ring
    · have hlt : e / d < 1 := (div_lt_one hd).mpr (lt_of_not_le hde)
      have hple : ¬ (1 : F) ≤ min (e / d) 1 := by
        intro hcon
        have hmin : min (e / d) 1 ≤ e / d := min_le_left _ _
        linarith
      obtain ⟨e2, he2, hde2⟩ := hex
      have he2rest : e2 ∈ rest := by
        rcases List.mem_cons.mp he2 with h | h
        · exact absurd (h ▸ hde2) hde
        · exact h
      rcases h1 : innerLoop f d sv ev false env r rest (n + 1) with ⟨ts, n1, ek⟩
      have hih := ih (n + 1) hraise ⟨e2, he2rest, hde2⟩
      rw [h1] at hih
      obtain ⟨hek, t, htl, htr, htv⟩ := hih
      have heq : innerLoop f d sv ev false env r (e :: rest) n
          = (⟨r, min (e / d) 1, sv + (ev - sv) * f (min (e / d) 1), false⟩ :: ts,
             n1, ek) := by
        simp [innerLoop, hdo, hr, hple, h1]
      rw [heq]
      exact ⟨hek, t, getLast?_cons_of_some htl, htr, htv⟩

/-- Every tick of one repeat iteration carries the iteration index and
the interpolated value computed from its raw progress, with the
auto-reverse flip applied to the eased value when the index is odd. -/
theorem innerLoop_tick_shape {f : F → F} {d sv ev : F} {ar : Bool}
    {env : LoopEnv} (r : ℕ) :
    ∀ (samples : List F) (n : ℕ),
      ∀ t ∈ (innerLoop f d sv ev ar env r samples n).1,
        t.repeatIndex = r ∧
        t.value = sv + (ev - sv) *
          (if ar && decide (r % 2 = 1) then 1 - f t.rawProgress
           else f t.rawProgress) := by
  intro samples
  induction samples with
  | nil =>
    intro n t ht
    simp [innerLoop] at ht
  | cons e rest ih =>
    intro n t ht
    by_cases hdo : env.doRun n
    · by_cases hr : env.raiseAt n
      · simp [innerLoop, hdo, hr] at ht
        subst ht
        simp
      · simp only [Bool.not_eq_true] at hr
        by_cases hp : (1 : F) ≤ min (e / d) 1
        · simp [innerLoop, hdo, hr, hp] at ht
          subst ht
          simp
        · rcases h1 : innerLoop f d sv ev ar env r rest (n + 1) with ⟨ts, n1, ek⟩
          have heq : innerLoop f d sv ev ar env r (e :: rest) n
              = (⟨r, min (e / d) 1,
                  sv + (ev - sv) *
                    (if ar && decide (r % 2 = 1) then 1 - f (min (e / d) 1)
                     else f (min (e / d) 1)), false⟩ :: ts, n1, ek) := by
            simp [innerLoop, hdo, hr, hp, h1]
          rw [heq] at ht
          rcases List.mem_cons.mp ht with h | h
          · subst h
            simp
          · exact ih (n + 1) t (by rw [h1]; exact h)
    · simp only [Bool.not_eq_true] at hdo
      simp [innerLoop, hdo] at ht

/-- Lifting of the tick shape through all repeat iterations: every tick
of a run interpolates with the flip decided by the parity of its own
repeat index. -/
theorem repeatLoop_tick_shape {f : F → F} {d sv ev : F} {ar : Bool}
    {env : LoopEnv} {sched : ℕ → List F} :
    ∀ (rem r n : ℕ), ∀ t ∈ (repeatLoop f d sv ev ar env sched r rem n).1,
      t.value = sv + (ev - sv) *
        (if ar && decide (t.repeatIndex % 2 = 1) then 1 - f t.rawProgress
         else f t.rawProgress) := by
  intro rem
  induction rem with
  | zero =>
    intro r n t ht
    simp [repeatLoop] at ht
  | succ k ih =>
    intro r n t ht
    rcases h1 : innerLoop f d sv ev ar env r (sched r) n with ⟨ts, n1, ek⟩
    rcases h2 : repeatLoop f d sv ev ar env sched (r + 1) k n1 with ⟨ts2, n2, eks⟩
    have hsplit : t ∈ ts ++ ts2 := by
      have heq : (repeatLoop f d sv ev ar env sched r (k + 1) n).1 = ts ++ ts2 := by
        simp [repeatLoop, h1, h2]
      rw [heq] at ht
      exact ht
    rcases List.mem_append.mp hsplit with h | h
    · obtain ⟨hidx, hval⟩ := innerLoop_tick_shape r (sched r) n t (by rw [h1]; exact h)
      rw [hidx]
      exact hval
    · exact ih (r + 1) n1 t (by rw [h2]; exact h)

/-- Boundary value `f(0) = 0` for every resolved easing function. -/
theorem resolveEasing_zero (e : EasingType) : resolveEasing e 0 = 0 := by
  cases e <;>
    norm_num [resolveEasing, easingFunctionsDict, EasingFunctions.linear,
      EasingFunctions.ease_in_quad, EasingFunctions.ease_out_quad,
      EasingFunctions.ease_in_out_quad, EasingFunctions.ease_in_cubic,
      EasingFunctions.ease_out_cubic, EasingFunctions.ease_in_out_cubic,
      EasingFunctions.bounce_out, EasingFunctions.elastic_out,
      EasingFunctions.ease_in_back, EasingFunctions.ease_out_back,
      EasingFunctions.ease_in_out_back, EasingFunctions.ease_in_circ,
      EasingFunctions.ease_out_circ, EasingFunctions.ease_in_out_circ]

/-- Boundary value `f(1) = 1` for every resolved easing function. -/
theorem resolveEasing_one (e : EasingType) : resolveEasing e 1 = 1 := by
  cases e <;>
    norm_num [resolveEasing, easingFunctionsDict, EasingFunctions.linear,
      EasingFunctions.ease_in_quad, EasingFunctions.ease_out_quad,
      EasingFunctions.ease_in_out_quad, EasingFunctions.ease_in_cubic,
      EasingFunctions.ease_out_cubic, EasingFunctions.ease_in_out_cubic,
      EasingFunctions.bounce_out, EasingFunctions.elastic_out,
      EasingFunctions.ease_in_back, EasingFunctions.ease_out_back,
      EasingFunctions.ease_in_out_back, EasingFunctions.ease_in_circ,
      EasingFunctions.ease_out_circ, EasingFunctions.ease_in_out_circ]

/-! Claim theorems. -/

/-- Claim C1, counterexample: after replacing the running `"fade"`
animation, the old thread (token `0`) has been told to stop, yet a
thread cancelled before its first `do_run` check still invokes its
completion callback — so the old instance's `onComplete` does fire,
contrary to the claim. -/
theorem replaced_instance_completion_fires :
    (0 : ℕ) ∈ (AnimationManager.animate
        (AnimationManager.animate (AnimationManager.init ℝ) "fade" 0 1
          ⟨1, EasingType.LINEAR, 60, false, 1, 0⟩ true)
        "fade" 0 2 ⟨1, EasingType.LINEAR, 60, false, 1, 0⟩ true).stoppedTokens ∧
    (animationLoop ⟨1, EasingType.LINEAR, 60, false, 1, 0⟩ 0 1 true
        (fun _ => [1/3, 1]) ⟨some 0, fun _ => false⟩).completionCalled = true := by
  constructor
  · simp [AnimationManager.animate, AnimationManager.stop_animation,
      AnimationManager.init, List.lookup]
  · norm_num [animationLoop, animationLoopCore, repeatLoop, innerLoop, LoopEnv.doRun]

omit [LinearOrderedField F] in
/-- Claim C1 (amended): starting an animation under an id that is
already running stops the old thread (its token is recorded cancelled)
and registers a distinct fresh thread before starting it, and a
cancelled thread delivers no further update callbacks from its next
`do_run` check onward; however the old instance's completion callback,
when supplied, is still invoked when its loop exits, and the old
thread's cleanup deletes the new instance's registry entry. -/
theorem replace_on_restart_amended (s : ManagerState F) (id : String) (oldTok : ℕ)
    (sv ev : F) (cfg : AnimationConfig F) (hc : Bool)
    (cfg2 : AnimationConfig ℝ) (sv2 ev2 : ℝ) (sched : ℕ → List ℝ) (env : LoopEnv)
    (hnd : (s.active.map Prod.fst).Nodup)
    (hlk : s.active.lookup id = some oldTok)
    (hinv : ∀ p ∈ s.active, p.2 < s.nextToken)
    (hcz : env.cancelAt = some 0) :
    oldTok ∈ (AnimationManager.animate s id sv ev cfg hc).stoppedTokens ∧
    (AnimationManager.animate s id sv ev cfg hc).active.lookup id
      = some s.nextToken ∧
    oldTok ≠ s.nextToken ∧
    (animationLoop cfg2 sv2 ev2 true sched env).ticks = [] ∧
    (animationLoop cfg2 sv2 ev2 true sched env).completionCalled = true ∧
    AnimationManager.is_animating
      (AnimationManager.loopCleanup
        (AnimationManager.animate s id sv ev cfg hc) id) id = false := by
  have hstop : AnimationManager.stop_animation s id
      = { s with
          active := s.active.eraseP (fun p => p.1 == id)
          stoppedTokens := oldTok :: s.stoppedTokens } := by
    simp [AnimationManager.stop_animation, hlk]
  have hne : oldTok ≠ s.nextToken :=
    ne_of_lt (hinv (id, oldTok) (lookup_mem hlk))
  refine ⟨?_, ?_, hne, ?_, ?_, ?_⟩
  · simp [AnimationManager.animate, hstop]
  · simp [AnimationManager.animate, hstop, List.lookup]
  · rw [animationLoop, animationLoopCore_ticks]
    exact repeatLoop_cancelled hcz sched _ _ _
  · rw [animationLoop]
    exact animationLoopCore_completionCalled _ _ _ _ _ _ _
  · have hactive : (AnimationManager.animate s id sv ev cfg hc).active
        = (id, s.nextToken) :: s.active.eraseP (fun p => p.1 == id) := by
      simp [AnimationManager.animate, hstop]
    rw [AnimationManager.loopCleanup, hactive]
    simp [List.lookup, AnimationManager.is_animating, List.eraseP_cons,
      lookup_eraseP_self hnd]

/-- Claim C1, witness for the amended theorem. -/
theorem replace_on_restart_amended_witness :
    (((⟨[("x", 0)], 1, [], []⟩ : ManagerState ℚ).active.map Prod.fst).Nodup ∧
     (⟨[("x", 0)], 1, [], []⟩ : ManagerState ℚ).active.lookup "x" = some 0 ∧
     (∀ p ∈ (⟨[("x", 0)], 1, [], []⟩ : ManagerState ℚ).active, p.2 < 1) ∧
     (⟨some 0, fun _ => false⟩ : LoopEnv).cancelAt = some 0) ∧
    ((0 : ℕ) ∈ (AnimationManager.animate (⟨[("x", 0)], 1, [], []⟩ : ManagerState ℚ)
        "x" 0 1 ⟨1, EasingType.LINEAR, 60, false, 1, 0⟩ true).stoppedTokens ∧
     (AnimationManager.animate (⟨[("x", 0)], 1, [], []⟩ : ManagerState ℚ)
        "x" 0 1 ⟨1, EasingType.LINEAR, 60, false, 1, 0⟩ true).active.lookup "x"
        = some 1 ∧
     (0 : ℕ) ≠ 1 ∧
     (animationLoop ⟨1, EasingType.LINEAR, 60, false, 1, 0⟩ 0 1 true (fun _ => [])
        ⟨some 0, fun _ => false⟩).ticks = [] ∧
     (animationLoop ⟨1, EasingType.LINEAR, 60, false, 1, 0⟩ 0 1 true (fun _ => [])
        ⟨some 0, fun _ => false⟩).completionCalled = true ∧
     AnimationManager.is_animating
       (AnimationManager.loopCleanup
         (AnimationManager.animate (⟨[("x", 0)], 1, [], []⟩ : ManagerState ℚ)
           "x" 0 1 ⟨1, EasingType.LINEAR, 60, false, 1, 0⟩ true) "x") "x" = false) :=
  ⟨⟨by simp, by simp [List.lookup], by simp, rfl⟩,
   replace_on_restart_amended _ "x" 0 0 1 _ true _ 0 1 _ _
     (by simp) (by simp [List.lookup]) (by simp) rfl⟩

/-- Claim C2, counterexample: a stop taking effect during the start
delay (the `do_run` flag is already `False` at the loop's first check)
prevents every tick, yet the completion callback still fires — contrary
to the claim that no completion call occurs. -/
theorem stop_during_delay_still_completes :
    (animationLoop ⟨2, EasingType.LINEAR, 30, false, 1, 1/2⟩ 0 100 true
        (fun _ => [1/4, 2]) ⟨some 0, fun _ => false⟩).ticks = [] ∧
    (animationLoop ⟨2, EasingType.LINEAR, 30, false, 1, 1/2⟩ 0 100 true
        (fun _ => [1/4, 2]) ⟨some 0, fun _ => false⟩).completionCalled = true := by
  constructor <;>
    norm_num [animationLoop, animationLoopCore, repeatLoop, innerLoop, LoopEnv.doRun]

omit [LinearOrderedField F] in
/-- Claim C2 (amended): once `stop_animation` returns, `is_animating`
reports `false`, and a thread whose `do_run` flag was cleared before its
next check delivers no further update callback — in particular a stop
during the start delay prevents every tick; however the completion
callback, when supplied, is still invoked by the stopped thread. -/
theorem stop_animation_amended (s : ManagerState F) (id : String)
    (cfg : AnimationConfig ℝ) (sv ev : ℝ) (hc : Bool) (sched : ℕ → List ℝ)
    (env : LoopEnv)
    (hnd : (s.active.map Prod.fst).Nodup)
    (hcz : env.cancelAt = some 0) :
    AnimationManager.is_animating (AnimationManager.stop_animation s id) id
      = false ∧
    (animationLoop cfg sv ev hc sched env).ticks = [] ∧
    (animationLoop cfg sv ev hc sched env).completionCalled = hc := by
  refine ⟨?_, ?_, ?_⟩
  · cases h : s.active.lookup id with
    | none => simp [AnimationManager.stop_animation, h, AnimationManager.is_animating]
    | some tok =>
      simp [AnimationManager.stop_animation, h, AnimationManager.is_animating,
        lookup_eraseP_self hnd]
  · rw [animationLoop, animationLoopCore_ticks]
    exact repeatLoop_cancelled hcz sched _ _ _
  · rw [animationLoop]
    exact animationLoopCore_completionCalled _ _ _ _ _ _ _

/-- Claim C2, witness for the amended theorem. -/
theorem stop_animation_amended_witness :
    (((⟨[("y", 2)], 3, [], []⟩ : ManagerState ℚ).active.map Prod.fst).Nodup ∧
     (⟨some 0, fun _ => false⟩ : LoopEnv).cancelAt = some 0) ∧
    (AnimationManager.is_animating
       (AnimationManager.stop_animation (⟨[("y", 2)], 3, [], []⟩ : ManagerState ℚ) "y")
       "y" = false ∧
     (animationLoop ⟨1, EasingType.EASE_OUT_CUBIC, 60, false, 1, 0⟩ 0 1 false
        (fun _ => [1]) ⟨some 0, fun _ => false⟩).ticks = [] ∧
     (animationLoop ⟨1, EasingType.EASE_OUT_CUBIC, 60, false, 1, 0⟩ 0 1 false
        (fun _ => [1]) ⟨some 0, fun _ => false⟩).completionCalled = false) :=
  ⟨⟨by simp, rfl⟩,
   stop_animation_amended _ "y" _ 0 1 false _ _ (by simp) rfl⟩

/-- Claim C3, counterexample: a config with non-positive duration
(`duration = 0`) is not rejected — `animate` registers the id and spawns
a task for it, so no synchronous `InvalidConfig` rejection happens
before the task is spawned. -/
theorem zero_duration_config_spawns :
    AnimationManager.is_animating
      (AnimationManager.animate (AnimationManager.init ℚ) "glow" 0 1
        ⟨0, EasingType.ELASTIC_OUT, 60, false, 1, 0⟩ false) "glow" = true ∧
    (AnimationManager.animate (AnimationManager.init ℚ) "glow" 0 1
        ⟨0, EasingType.ELASTIC_OUT, 60, false, 1, 0⟩ false).spawns.length = 1 := by
  constructor
  · simp [AnimationManager.animate, AnimationManager.stop_animation,
      AnimationManager.init, AnimationManager.is_animating, List.lookup]
  · simp [AnimationManager.animate, AnimationManager.stop_animation,
      AnimationManager.init]

omit [LinearOrderedField F] in
/-- Claim C3 (amended): `animate` performs no validation at all — for
every config, including non-positive durations and regardless of the
easing selector, it registers the id and spawns exactly one new task;
no `InvalidConfig` error exists anywhere in the code, and within the
typed enum every easing selector is resolved (the `.get` fallback to
`ease_out_cubic` in the loop is the only handling of easing lookup). -/
theorem animate_never_rejects (s : ManagerState F) (id : String) (sv ev : F)
    (cfg : AnimationConfig F) (hc : Bool) :
    AnimationManager.is_animating (AnimationManager.animate s id sv ev cfg hc) id
      = true ∧
    (AnimationManager.animate s id sv ev cfg hc).spawns.length
      = s.spawns.length + 1 := by
  have hsp : (AnimationManager.stop_animation s id).spawns = s.spawns := by
    cases h : s.active.lookup id <;> simp [AnimationManager.stop_animation, h]
  constructor
  · simp [AnimationManager.is_animating, AnimationManager.animate, List.lookup]
  · simp [AnimationManager.animate, hsp]

/-- Claim C4, counterexample: with two further clock samples available
and raw progress only `1/2`, a raising update callback ends the run at
once (one tick, exit `raised`) instead of continuing with the next
tick — the frame is not merely dropped. -/
theorem update_exception_skips_rest_of_iteration :
    animationLoop ⟨1, EasingType.LINEAR, 60, false, 1, 0⟩ 0 1 true
        (fun _ => [1/2, 3/4, 1]) ⟨none, fun n => n = 0⟩
      = ⟨[⟨0, 1/2, 1/2, true⟩], [ExitKind.raised], true⟩ := by
  norm_num [animationLoop, animationLoopCore, repeatLoop, innerLoop, LoopEnv.doRun,
    resolveEasing, easingFunctionsDict, EasingFunctions.linear]

/-- Claim C4 (amended): an exception in the update callback is caught at
the call site and does not terminate the runner's task — every repeat
iteration still reaches an exit and the completion callback still runs —
but the loop does not continue with the next tick: the `break` in the
`except` clause ends the current repeat iteration immediately after the
raising invocation. -/
theorem callback_failure_breaks_iteration (f : F → F) (cfg : AnimationConfig F)
    (sv ev : F) (hc : Bool) (sched : ℕ → List F) (env : LoopEnv)
    (e : F) (rest : List F) (r n : ℕ)
    (hdo : env.doRun n = true) (hr : env.raiseAt n = true) :
    innerLoop f cfg.duration sv ev cfg.auto_reverse env r (e :: rest) n
      = ([⟨r, min (e / cfg.duration) 1,
            sv + (ev - sv) *
              (if cfg.auto_reverse && decide (r % 2 = 1)
               then 1 - f (min (e / cfg.duration) 1)
               else f (min (e / cfg.duration) 1)), true⟩], n + 1,
         ExitKind.raised) ∧
    (animationLoopCore f cfg sv ev hc sched env).exits.length
      = cfg.repeat_count.toNat ∧
    (animationLoopCore f cfg sv ev hc sched env).completionCalled = hc := by
  refine ⟨?_, ?_, animationLoopCore_completionCalled _ _ _ _ _ _ _⟩
  · simp [innerLoop, hdo, hr]
  · rw [animationLoopCore_exits]
    exact repeatLoop_exits_length _ _ _ _ _ _ _ _ _ _

/-- Claim C4, witness for the amended theorem. -/
theorem callback_failure_breaks_iteration_witness :
    ((⟨none, fun _ => true⟩ : LoopEnv).doRun 0 = true ∧
     (⟨none, fun _ => true⟩ : LoopEnv).raiseAt 0 = true) ∧
    (innerLoop (fun t => t)
        (⟨1, EasingType.LINEAR, 60, false, 2, 0⟩ : AnimationConfig ℚ).duration 0 1
        (⟨1, EasingType.LINEAR, 60, false, 2, 0⟩ : AnimationConfig ℚ).auto_reverse
        ⟨none, fun _ => true⟩ 0 ([(1 : ℚ)/2] ) 0
      = ([⟨0, min ((1 : ℚ)/2 / 1) 1,
            0 + (1 - 0) *
              (if (⟨1, EasingType.LINEAR, 60, false, 2, 0⟩ : AnimationConfig ℚ).auto_reverse
                  && decide (0 % 2 = 1)
               then 1 - (min ((1 : ℚ)/2 / 1) 1)
               else (min ((1 : ℚ)/2 / 1) 1)), true⟩], 0 + 1,
         ExitKind.raised) ∧
     (animationLoopCore (fun t => t)
        (⟨1, EasingType.LINEAR, 60, false, 2, 0⟩ : AnimationConfig ℚ) 0 1 true
        (fun _ => [(1 : ℚ)/2]) ⟨none, fun _ => true⟩).exits.length
        = ((⟨1, EasingType.LINEAR, 60, false, 2, 0⟩ : AnimationConfig ℚ).repeat_count).toNat ∧
     (animationLoopCore (fun t => t)
        (⟨1, EasingType.LINEAR, 60, false, 2, 0⟩ : AnimationConfig ℚ) 0 1 true
        (fun _ => [(1 : ℚ)/2]) ⟨none, fun _ => true⟩).completionCalled = true) :=
  ⟨⟨rfl, rfl⟩,
   callback_failure_breaks_iteration (fun t => t) _ 0 1 true _ _ ((1 : ℚ)/2) [] 0 0
     rfl rfl⟩

/-- Claim C5: evaluating the loop at the repository's own failing input
(`repeat_count = -1`, used by ProgressBar's pulse with the comment
"Infinite"): `range(-1)` is empty, so the run delivers no update at
all and invokes the completion callback immediately although nothing
ever stopped the animation. -/
theorem repeat_sentinel_completes_immediately :
    animationLoop ⟨1, EasingType.EASE_IN_OUT_QUAD, 60, true, -1, 0⟩ 0 1 true
        (fun _ => [1/2, 1]) ⟨none, fun _ => false⟩
      = ⟨[], [], true⟩ := by
  norm_num [animationLoop, animationLoopCore, repeatLoop]

/-- Claim C6: for a run with `repeat_count = 1`, `auto_reverse = false`,
positive duration, no stop and no raising callback, driven by monotone
clock samples that reach the duration, the raw progress values
underlying the delivered updates are non-decreasing, the run completes,
and the last delivered tick has raw progress exactly `1` and value
exactly `end_value`. -/
theorem single_run_monotone_completion (cfg : AnimationConfig ℝ) (sv ev : ℝ)
    (hc : Bool) (sched : ℕ → List ℝ) (env : LoopEnv)
    (hrc : cfg.repeat_count = 1) (har : cfg.auto_reverse = false)
    (hd : 0 < cfg.duration) (hcn : env.cancelAt = none)
    (hraise : ∀ m, env.raiseAt m = false)
    (hmono : (sched 0).Chain' (· ≤ ·))
    (hreach : ∃ e ∈ sched 0, cfg.duration ≤ e) :
    ((animationLoop cfg sv ev hc sched env).ticks.map Tick.rawProgress).Chain'
      (· ≤ ·) ∧
    (animationLoop cfg sv ev hc sched env).exits = [ExitKind.completed] ∧
    ∃ t, (animationLoop cfg sv ev hc sched env).ticks.getLast? = some t ∧
      t.rawProgress = 1 ∧ t.value = ev := by
  have hf1 : resolveEasing cfg.easing 1 = 1 := resolveEasing_one _
  rcases h1 : innerLoop (resolveEasing cfg.easing) cfg.duration sv ev false env 0
      (sched 0) 0 with ⟨ts, n1, ek⟩
  have hcomp := innerLoop_completed (resolveEasing cfg.easing) cfg.duration sv ev
    env hcn hd hf1 0 (sched 0) 0 hraise hreach
  rw [h1] at hcomp
  obtain ⟨hek, t, htl, htr, htv⟩ := hcomp
  have hchain := innerLoop_chain' (resolveEasing cfg.easing) cfg.duration sv ev
    false env hcn hd 0 (sched 0) 0 hmono
  rw [h1] at hchain
  have hticks : (animationLoop cfg sv ev hc sched env).ticks = ts := by
    rw [animationLoop, animationLoopCore_ticks, hrc, har]
    simp [repeatLoop, h1]
  have hexits : (animationLoop cfg sv ev hc sched env).exits = [ek] := by
    rw [animationLoop, animationLoopCore_exits, hrc, har]
    simp [repeatLoop, h1]
  refine ⟨?_, ?_, t, ?_, htr, htv⟩
  · rw [hticks]
    exact hchain
  · rw [hexits]
    have hek2 : ek = ExitKind.completed := hek
    rw [hek2]
  · rw [hticks]
    exact htl

/-- Claim C6, witness. -/
theorem single_run_monotone_completion_witness :
    ((⟨1, EasingType.LINEAR, 60, false, 1, 0⟩ : AnimationConfig ℝ).repeat_count = 1 ∧
     (⟨1, EasingType.LINEAR, 60, false, 1, 0⟩ : AnimationConfig ℝ).auto_reverse = false ∧
     (0 : ℝ) < 1 ∧
     (⟨none, fun _ => false⟩ : LoopEnv).cancelAt = none ∧
     (∀ m, (⟨none, fun _ => false⟩ : LoopEnv).raiseAt m = false) ∧
     ([(1 : ℝ)/2, 1].Chain' (· ≤ ·)) ∧
     (∃ e ∈ [(1 : ℝ)/2, 1], (1 : ℝ) ≤ e)) ∧
    (((animationLoop ⟨1, EasingType.LINEAR, 60, false, 1, 0⟩ 0 1 true
        (fun _ => [(1 : ℝ)/2, 1]) ⟨none, fun _ => false⟩).ticks.map
          Tick.rawProgress).Chain' (· ≤ ·) ∧
     (animationLoop ⟨1, EasingType.LINEAR, 60, false, 1, 0⟩ 0 1 true
        (fun _ => [(1 : ℝ)/2, 1]) ⟨none, fun _ => false⟩).exits
        = [ExitKind.completed] ∧
     ∃ t, (animationLoop ⟨1, EasingType.LINEAR, 60, false, 1, 0⟩ 0 1 true
        (fun _ => [(1 : ℝ)/2, 1]) ⟨none, fun _ => false⟩).ticks.getLast? = some t ∧
       t.rawProgress = 1 ∧ t.value = 1) :=
  ⟨⟨rfl, rfl, one_pos, rfl, fun _ => rfl, by norm_num, ⟨1, by simp, le_refl 1⟩⟩,
   single_run_monotone_completion _ 0 1 true _ _ rfl rfl one_pos rfl
     (fun _ => rfl) (by norm_num) ⟨1, by simp, le_refl 1⟩⟩

/-- Claim C7: for every easing kind in the `EasingType` enumeration, the
resolved easing function `f` satisfies `f(0) = 0` and `f(1) = 1`
exactly, including the overshooting back variants and `elastic_out`
(whose `t = 0` and `t = 1` are explicit boundary cases). -/
theorem easing_boundary_values (e : EasingType) :
    resolveEasing e 0 = 0 ∧ resolveEasing e 1 = 1 :=
  ⟨resolveEasing_zero e, resolveEasing_one e⟩

/-- Claim C8: with `auto_reverse = true`, every delivered tick of repeat
iteration `r` uses the eased progress `e` when `r` is even and `1 - e`
when `r` is odd, the flip being applied to the eased value. -/
theorem auto_reverse_parity (cfg : AnimationConfig ℝ) (sv ev : ℝ) (hc : Bool)
    (sched : ℕ → List ℝ) (env : LoopEnv) (har : cfg.auto_reverse = true) :
    ∀ t ∈ (animationLoop cfg sv ev hc sched env).ticks,
      t.value = sv + (ev - sv) *
        (if t.repeatIndex % 2 = 1 then 1 - resolveEasing cfg.easing t.rawProgress
         else resolveEasing cfg.easing t.rawProgress) := by
  intro t ht
  rw [animationLoop, animationLoopCore_ticks] at ht
  have hshape := repeatLoop_tick_shape cfg.repeat_count.toNat 0 0 t ht
  rw [har] at hshape
  simpa using hshape

/-- Claim C8, witness. -/
theorem auto_reverse_parity_witness :
    ((⟨1, EasingType.EASE_IN_QUAD, 60, true, 4, 0⟩ : AnimationConfig ℝ).auto_reverse
      = true) ∧
    (∀ t ∈ (animationLoop ⟨1, EasingType.EASE_IN_QUAD, 60, true, 4, 0⟩ 0 1 true
        (fun _ => [(1 : ℝ)/2, 1]) ⟨none, fun _ => false⟩).ticks,
      t.value = 0 + (1 - 0) *
        (if t.repeatIndex % 2 = 1
         then 1 - resolveEasing EasingType.EASE_IN_QUAD t.rawProgress
         else resolveEasing EasingType.EASE_IN_QUAD t.rawProgress)) :=
  ⟨rfl, auto_reverse_parity _ 0 1 true _ _ rfl⟩

omit [LinearOrderedField F] in
/-- Claim C9: stopping twice, or stopping an unknown or already-finished
id, is a no-op beyond the first effect: the second stop leaves the state
exactly as the first left it, and a stop of an unregistered id changes
nothing.  The embedded `stop_animation` is a total function that
touches only the registry — it invokes no update or completion
callback and raises nothing. -/
theorem stop_idempotent (s : ManagerState F) (id : String)
    (hnd : (s.active.map Prod.fst).Nodup) :
    AnimationManager.stop_animation (AnimationManager.stop_animation s id) id
      = AnimationManager.stop_animation s id ∧
    (s.active.lookup id = none → AnimationManager.stop_animation s id = s) := by
  have hnoop : ∀ s2 : ManagerState F, s2.active.lookup id = none →
      AnimationManager.stop_animation s2 id = s2 := by
    intro s2 h2
    simp [AnimationManager.stop_animation, h2]
  refine ⟨?_, hnoop s⟩
  cases h : s.active.lookup id with
  | none =>
    rw [hnoop s h]
    exact hnoop s h
  | some tok =>
    apply hnoop
    simp only [AnimationManager.stop_animation, h]
    exact lookup_eraseP_self hnd

/-- Claim C9, witness. -/
theorem stop_idempotent_witness :
    (((⟨[("a", 3)], 4, [], []⟩ : ManagerState ℚ).active.map Prod.fst).Nodup) ∧
    (AnimationManager.stop_animation
        (AnimationManager.stop_animation (⟨[("a", 3)], 4, [], []⟩ : ManagerState ℚ) "a")
        "a"
      = AnimationManager.stop_animation (⟨[("a", 3)], 4, [], []⟩ : ManagerState ℚ) "a" ∧
     ((⟨[("a", 3)], 4, [], []⟩ : ManagerState ℚ).active.lookup "a" = none →
       AnimationManager.stop_animation (⟨[("a", 3)], 4, [], []⟩ : ManagerState ℚ) "a"
         = (⟨[("a", 3)], 4, [], []⟩ : ManagerState ℚ))) :=
  ⟨by simp, stop_idempotent _ "a" (by simp)⟩

omit [LinearOrderedField F] in
/-- Claim C10: with animations disabled in the widget config,
`animate_property` synchronously sets the attribute to exactly
`end_value`, calls `update_appearance()` once, spawns nothing, and
leaves the current-animations registry (and every thread flag)
unchanged. -/
theorem disabled_animation_sets_immediately (w : WidgetState F)
    (property_name : String) (sv ev : F)
    (hoff : w.enable_animations = false) :
    (AnimatedWidget.animate_property w property_name sv ev).attrs property_name
      = ev ∧
    (AnimatedWidget.animate_property w property_name sv ev).appearance_updates
      = w.appearance_updates + 1 ∧
    (AnimatedWidget.animate_property w property_name sv ev).current_animations
      = w.current_animations ∧
    (AnimatedWidget.animate_property w property_name sv ev).spawned = w.spawned ∧
    (AnimatedWidget.animate_property w property_name sv ev).stoppedTokens
      = w.stoppedTokens := by
  simp [AnimatedWidget.animate_property, hoff]

/-- Claim C10, witness. -/
theorem disabled_animation_sets_immediately_witness :
    ((⟨false, 1, fun _ => 0, 0, [], 0, [], []⟩ : WidgetState ℚ).enable_animations
      = false) ∧
    ((AnimatedWidget.animate_property
        (⟨false, 1, fun _ => 0, 0, [], 0, [], []⟩ : WidgetState ℚ)
        "opacity" 0 5).attrs "opacity" = 5 ∧
     (AnimatedWidget.animate_property
        (⟨false, 1, fun _ => 0, 0, [], 0, [], []⟩ : WidgetState ℚ)
        "opacity" 0 5).appearance_updates = 0 + 1 ∧
     (AnimatedWidget.animate_property
        (⟨false, 1, fun _ => 0, 0, [], 0, [], []⟩ : WidgetState ℚ)
        "opacity" 0 5).current_animations = [] ∧
     (AnimatedWidget.animate_property
        (⟨false, 1, fun _ => 0, 0, [], 0, [], []⟩ : WidgetState ℚ)
        "opacity" 0 5).spawned = [] ∧
     (AnimatedWidget.animate_property
        (⟨false, 1, fun _ => 0, 0, [], 0, [], []⟩ : WidgetState ℚ)
        "opacity" 0 5).stoppedTokens = []) :=
  ⟨rfl, disabled_animation_sets_immediately _ "opacity" 0 5 rfl⟩

end AnimatedWidgets
